import Mathlib

/-!
Verification development for `tars2squashfs` (src/tars2squashfs/main.py).

The core under study is `SquashFSBuilder`: an incremental batch-and-merge
extraction controller that places regular-file entries from an ordered list
of tar archives into a bounded staging area, commits batches to a SquashFS
image via `mksquashfs`, and merges duplicate top-level directory names
across archives through a `merged/` subtree.

Shallow embedding conventions:
* a tar member path is its list of segments (`Path(name).parts`);
* each archive's scratch directory (from `temp_directory`) is identified by
  its index in the run, so an absolute file location is a pair
  `(directory id, path inside that directory)`;
* the on-disk staging state is the list of regular files currently present
  in any scratch directory; directories are implicit (created on demand);
* the observable behaviour is a trace of events: real `mksquashfs` append
  calls (with the content root handed over and the files below it),
  dry-run "would append" reports, and informational duplicate-overwrite
  messages.
-/

namespace Tars2Squashfs

/-- A tar-member path as its slash-separated segments (`Path(...).parts`). -/
abbrev FPath := List String

/-- Kind of a tar member (`member.isfile()` / `member.isdir()` / other). -/
inductive MKind where
  | file
  | dir
  | other
deriving DecidableEq

/-- One tar member: relative path segments, kind, and (for regular files)
its byte content. -/
structure Member where
  name : FPath
  kind : MKind
  content : String
deriving DecidableEq

/-- `member.isfile()`. -/
def Member.isfile (m : Member) : Bool :=
  match m.kind with
  | MKind.file => true
  | _ => false

/-- `member.isdir()`. -/
def Member.isdir (m : Member) : Bool :=
  match m.kind with
  | MKind.dir => true
  | _ => false

/-- Build a regular-file member. -/
def fileM (name : FPath) (content : String) : Member :=
  ⟨name, MKind.file, content⟩

/-- `SquashFSBuilder.get_top_level_dir`: the first path segment, except that
an empty path has none and a single-segment name containing a dot
(`'.' in parts[0]`) is treated as a root-level file without a top-level
directory. -/
def get_top_level_dir (parts : FPath) : Option String :=
  match parts with
  | [] => none
  | [p] => if p.toList.contains '.' then none else some p
  | p :: _ :: _ => some p

/-- The files live on disk: `(scratch directory id, path inside it, content)`. -/
abbrev Fs := List (Nat × FPath × String)

/-- Write (or overwrite) a regular file at a destination, creating parent
directories implicitly. -/
def fsWrite (fs : Fs) (d : Nat) (p : FPath) (c : String) : Fs :=
  (d, p, c) :: fs.filter (fun en => !(en.1 == d && en.2.1 == p))

/-- `Path.exists()` for a file destination. -/
def fsExists (fs : Fs) (d : Nat) (p : FPath) : Bool :=
  fs.any (fun en => en.1 == d && en.2.1 == p)

/-- Content of the file at a destination, if present. -/
def fsGet (fs : Fs) (d : Nat) (p : FPath) : Option String :=
  (fs.find? (fun en => en.1 == d && en.2.1 == p)).map (fun en => en.2.2)

/-- The regular files below a content root, with paths made relative to it
(what `mksquashfs` would see when handed that root, and what
`rglob` counts in dry-run reporting). -/
def filesUnder (fs : Fs) (d : Nat) (pre : FPath) : List (FPath × String) :=
  (fs.filter (fun en => en.1 == d && pre.isPrefixOf en.2.1)).map
    (fun en => (en.2.1.drop pre.length, en.2.2))

/-- `shutil.rmtree` of a subtree inside a scratch directory. -/
def fsRemoveUnder (fs : Fs) (d : Nat) (pre : FPath) : Fs :=
  fs.filter (fun en => !(en.1 == d && pre.isPrefixOf en.2.1))

/-- `shutil.rmtree` of a whole scratch directory. -/
def fsRemoveDir (fs : Fs) (d : Nat) : Fs :=
  fs.filter (fun en => !(en.1 == d))

/-- Number of regular files currently inside a scratch directory. -/
def fsCountDir (fs : Fs) (d : Nat) : Nat :=
  (fs.filter (fun en => en.1 == d)).length

/-- Observable events of a run. -/
inductive Event where
  /-- A real `mksquashfs` append: the content root handed to the tool and
  the files below that root at call time (paths relative to the root). -/
  | commit (root : Nat × FPath) (files : List (FPath × String))
  /-- Dry-run report `[DRY RUN] Would append n files`. -/
  | dryReport (count : Nat)
  /-- Informational log `Overwriting duplicate file: name`. -/
  | overwrite (name : FPath)
deriving DecidableEq

/-- The real append calls of a trace: content root plus handed-over files. -/
def commitsOf (evs : List Event) : List ((Nat × FPath) × List (FPath × String)) :=
  evs.filterMap (fun ev =>
    match ev with
    | Event.commit r fls => some (r, fls)
    | _ => none)

/-- The dry-run append reports of a trace (reported file counts, in order). -/
def dryReportsOf (evs : List Event) : List Nat :=
  evs.filterMap (fun ev =>
    match ev with
    | Event.dryReport n => some n
    | _ => none)

/-- Total number of files handed to real append calls across a trace. -/
def committedFileTotal (evs : List Event) : Nat :=
  (commitsOf evs).foldl (fun a c => a + c.2.length) 0

/-- Mutable state of `SquashFSBuilder` relevant to the core, plus the disk
and the event trace. `merge_base_dir` records which scratch directory the
current `merged/` subtree lives in (`none` when unset, mirroring
`self.merge_base_dir is None`). -/
structure BState where
  files_in_batch : Nat
  total_files : Nat
  seen_top_dirs : List String
  merge_base_dir : Option Nat
  fs : Fs
  events : List Event
deriving DecidableEq

/-- Runtime configuration of the builder. -/
structure Config where
  batch_size : Nat
  dry_run : Bool
  merge_duplicates : Bool
deriving DecidableEq

/-- `append_path = self.merge_base_dir if self.merge_duplicates and
self.merge_base_dir else extract_path`: the content root handed to
`append_to_squashfs`. -/
def appendRoot (cfg : Config) (mb : Option Nat) (e : Nat) : Nat × FPath :=
  match mb with
  | some m => if cfg.merge_duplicates then (m, ["merged"]) else (e, [])
  | none => (e, [])

/-- `SquashFSBuilder.append_to_squashfs`: in dry-run mode it only reports
how many files are below the source directory; otherwise it invokes
`mksquashfs` on that directory (recorded as a commit event carrying the
files handed over). -/
def append_to_squashfs (cfg : Config) (fs : Fs) (root : Nat × FPath) : Event :=
  if cfg.dry_run then Event.dryReport (filesUnder fs root.1 root.2).length
  else Event.commit root (filesUnder fs root.1 root.2)

/-- `SquashFSBuilder.setup_merge_directory`: when merging is enabled and the
member has a top-level directory, lazily point `merge_base_dir` at
`extract_path / "merged"` (state change only; directory creation is
implicit, and skipped in dry-run anyway). -/
def setup_merge_directory (cfg : Config) (e : Nat) (top : Option String)
    (st : BState) : BState :=
  if !cfg.merge_duplicates || !top.isSome then st
  else
    match st.merge_base_dir with
    | none => { st with merge_base_dir := some e }
    | some _ => st

/-- `SquashFSBuilder.process_tar_member` for one member, with `e` the id of
the current archive's extraction directory. Regular files are placed
(through the merge root when merging is on and the member has a top-level
directory, overwriting an existing destination with an informational log),
the batch counters are incremented, and on reaching the batch size a real
run appends the current content root to the image and resets it (the reset
and the append are both skipped in dry-run, while the counter reset is
not). -/
def process_tar_member (cfg : Config) (e : Nat) (top : Option String)
    (m : Member) (st : BState) : BState :=
  if m.isfile then
    let st1 :=
      if cfg.dry_run then st
      else if cfg.merge_duplicates && top.isSome then
        let mb := st.merge_base_dir.getD e
        let dst : FPath := "merged" :: m.name
        let evs :=
          if fsExists st.fs mb dst then st.events ++ [Event.overwrite m.name]
          else st.events
        { st with merge_base_dir := some mb,
                  fs := fsWrite st.fs mb dst m.content,
                  events := evs }
      else
        { st with fs := fsWrite st.fs e m.name m.content }
    let st2 := { st1 with files_in_batch := st1.files_in_batch + 1,
                          total_files := st1.total_files + 1 }
    if cfg.batch_size ≤ st2.files_in_batch then
      let st4 :=
        if cfg.dry_run then st2
        else
          let root := appendRoot cfg st2.merge_base_dir e
          let st5 := { st2 with
            events := st2.events ++ [append_to_squashfs cfg st2.fs root] }
          if cfg.merge_duplicates && st2.merge_base_dir.isSome then
            { st5 with fs := fsRemoveUnder st5.fs root.1 ["merged"],
                       merge_base_dir := some e }
          else
            { st5 with fs := fsRemoveDir st5.fs e }
      { st4 with files_in_batch := 0 }
    else st2
  else st

/-- First pass of an archive when merging: every top-level directory name
contributed by a file or directory member. -/
def firstPassTops (members : List Member) : List String :=
  members.filterMap (fun m =>
    if m.isfile || m.isdir then get_top_level_dir m.name else none)

/-- Body of the extraction loop of `process_archive_streaming` (second
pass) for one member. -/
def streaming_member_step (cfg : Config) (e : Nat) (s : BState)
    (m : Member) : BState :=
  if m.isfile then
    let top := if cfg.merge_duplicates then get_top_level_dir m.name else none
    let s1 :=
      if cfg.merge_duplicates && top.isSome then
        setup_merge_directory cfg e top s
      else s
    process_tar_member cfg e top m s1
  else s

/-- The extraction loop of `process_archive_streaming` (second pass). -/
def process_members_streaming (cfg : Config) (e : Nat)
    (members : List Member) (st : BState) : BState :=
  members.foldl (streaming_member_step cfg e) st

/-- The final-batch append at archive end (`if self.files_in_batch > 0`):
`append_to_squashfs` is called unconditionally, so in dry-run it emits a
report. -/
def final_append (cfg : Config) (e : Nat) (st : BState) : BState :=
  if 0 < st.files_in_batch then
    let root := appendRoot cfg st.merge_base_dir e
    { st with events := st.events ++ [append_to_squashfs cfg st.fs root] }
  else st

/-- `SquashFSBuilder.process_archive_streaming`: zero the batch counter,
reset `merge_base_dir` for this archive (merging only), run the first pass
updating the run-wide seen set (merging only), extract every file member,
append the final partial batch, and tear the archive's scratch directory
down (the `temp_directory` context manager). -/
def process_archive_streaming (cfg : Config) (e : Nat)
    (members : List Member) (st : BState) : BState :=
  let st1 := { st with files_in_batch := 0 }
  let st2 :=
    if cfg.merge_duplicates then { st1 with merge_base_dir := none } else st1
  let st3 :=
    if cfg.merge_duplicates then
      { st2 with seen_top_dirs := st2.seen_top_dirs ++ firstPassTops members }
    else st2
  let st4 := process_members_streaming cfg e members st3
  let st5 := final_append cfg e st4
  { st5 with fs := fsRemoveDir st5.fs e }

/-- One member of the extraction loop of
`process_archive_memory_efficient`: placements go through a temporary
extract-and-move (same destinations), the whole placement is skipped in
dry-run, counters still increment, and at the batch boundary
`append_to_squashfs` is called unconditionally (reporting in dry-run)
while the content-root reset is real-run only. Unlike the streaming
placement there is no `setup_merge_directory` call. -/
def process_member_memeff (cfg : Config) (e : Nat) (m : Member)
    (s : BState) : BState :=
  if m.isfile then
    let s1 :=
      if cfg.dry_run then s
      else
        let top :=
          if cfg.merge_duplicates then get_top_level_dir m.name else none
        if cfg.merge_duplicates && top.isSome then
          let mb := s.merge_base_dir.getD e
          let dst : FPath := "merged" :: m.name
          let evs :=
            if fsExists s.fs mb dst then s.events ++ [Event.overwrite m.name]
            else s.events
          { s with merge_base_dir := some mb,
                   fs := fsWrite s.fs mb dst m.content,
                   events := evs }
        else
          { s with fs := fsWrite s.fs e m.name m.content }
    let s2 := { s1 with files_in_batch := s1.files_in_batch + 1,
                        total_files := s1.total_files + 1 }
    if cfg.batch_size ≤ s2.files_in_batch then
      let root := appendRoot cfg s2.merge_base_dir e
      let s3 := { s2 with
        events := s2.events ++ [append_to_squashfs cfg s2.fs root] }
      let s4 :=
        if cfg.dry_run then s3
        else if cfg.merge_duplicates && s2.merge_base_dir.isSome then
          { s3 with fs := fsRemoveUnder s3.fs root.1 ["merged"],
                    merge_base_dir := some e }
        else
          { s3 with fs := fsRemoveDir s3.fs e }
      { s4 with files_in_batch := 0 }
    else s2
  else s

/-- `SquashFSBuilder.process_archive_memory_efficient`: like the streaming
variant but with the one-file-at-a-time placement and, notably, without
the per-archive `merge_base_dir := None` reset. -/
def process_archive_memory_efficient (cfg : Config) (e : Nat)
    (members : List Member) (st : BState) : BState :=
  let st1 := { st with files_in_batch := 0 }
  let st2 :=
    if cfg.merge_duplicates then
      { st1 with seen_top_dirs := st1.seen_top_dirs ++ firstPassTops members }
    else st1
  let st3 := members.foldl (fun s m => process_member_memeff cfg e m s) st2
  let st4 := final_append cfg e st3
  { st4 with fs := fsRemoveDir st4.fs e }

/-- The pristine builder state at run start. -/
def initBState : BState :=
  { files_in_batch := 0, total_files := 0, seen_top_dirs := [],
    merge_base_dir := none, fs := [], events := [] }

/-- `SquashFSBuilder.build_from_archives`: process each archive of the
ordered list, each inside its own scratch directory (identified by the
archive's index), in streaming or memory-efficient mode. -/
def build_from_archives (cfg : Config) (archives : List (List Member))
    (memEff : Bool) : BState :=
  (archives.enum).foldl
    (fun s p =>
      if memEff then process_archive_memory_efficient cfg p.1 p.2 s
      else process_archive_streaming cfg p.1 p.2 s)
    initBState

/-- Modelled from the spec: the image and `CommitDirectory`. `mksquashfs`
is an external tool outside this repository; per the spec, a commit
"durably incorporates the contents of a directory into a persistent output
image, appending to whatever is already there", directory namespaces are
merged, and a path committed again follows the spec's last-writer-wins
merge-overwrite property. The image is the resulting finite map from
root-relative paths to contents (newest entry first). -/
def imageAppendDir (img : List (FPath × String))
    (files : List (FPath × String)) : List (FPath × String) :=
  files.foldl (fun im f => f :: im.filter (fun g => !(g.1 == f.1))) img

/-- The cumulative image produced by the real append calls of a trace,
starting from the empty image created by `initialize_squashfs`. -/
def imageOfTrace (evs : List Event) : List (FPath × String) :=
  evs.foldl (fun img ev =>
    match ev with
    | Event.commit _ fls => imageAppendDir img fls
    | _ => img) []

/-- Content stored in the image at a path. -/
def imageGet (img : List (FPath × String)) (p : FPath) : Option String :=
  (img.find? (fun g => g.1 == p)).map (fun g => g.2)

/-! ### Timing model of the external tool invocations

`subprocess.run` either completes within the given timeout or raises
`TimeoutExpired`; the duration of the external process is made an explicit
parameter. -/

/-- Failure of a modelled subprocess invocation. -/
inductive SubErr where
  | timeoutExpired
deriving DecidableEq

/-- `subprocess.run(cmd, timeout=t)` for a process running `duration`
seconds: with a timeout it fails once the duration exceeds it; with no
timeout argument it always runs to completion. -/
def subprocess_run (duration : Nat) (tmo : Option Nat) : Except SubErr Unit :=
  match tmo with
  | some t => if t < duration then Except.error SubErr.timeoutExpired else Except.ok ()
  | none => Except.ok ()

/-- The external-call skeleton of `SquashFSBuilder.append_to_squashfs`:
dry-run returns immediately; otherwise `mksquashfs` is run with
`timeout=300`, and `TimeoutExpired` is converted into a `RuntimeError`
surfaced to the caller (a single attempt, no retry). -/
def append_to_squashfs_run (dry : Bool) (duration : Nat) : Except String Unit :=
  if dry then Except.ok ()
  else
    match subprocess_run duration (some 300) with
    | Except.error _ =>
        Except.error "mksquashfs operation timed out after 5 minutes"
    | Except.ok _ => Except.ok ()

/-- The external-call skeleton of `SquashFSBuilder.initialize_squashfs`:
dry-run returns immediately; otherwise `mksquashfs -noappend` is run with
no timeout argument at all. -/
def initialize_squashfs_run (dry : Bool) (duration : Nat) : Except String Unit :=
  if dry then Except.ok ()
  else
    match subprocess_run duration none with
    | Except.error _ => Except.error "mksquashfs failed"
    | Except.ok _ => Except.ok ()

/-! ### Concrete input families used in the analysis -/

/-- A root-level file name containing a dot: `i` letters `a` followed by
`.` — so `get_top_level_dir` assigns it no top-level directory, and
distinct indices give distinct names. -/
def dotName (i : Nat) : String :=
  String.mk (List.replicate i 'a' ++ ['.'])

/-- `l` regular-file members named `dotName s, …, dotName (s+l-1)`, all
root-level names with a dot. -/
def looseFiles (s l : Nat) : List Member :=
  (List.range' s l).map (fun i => fileM [dotName i] "")

/-- An archive holding one file inside a top-level directory (which makes
the merge root come into existence) followed by `n` distinct root-level
files whose names contain a dot. -/
def looseArchive (n : Nat) : List Member :=
  fileM ["d", "seed.bin"] "s" :: looseFiles 0 n

/-- Within one archive's extraction loop, the merge-root reference is
either unset or the current archive's scratch directory, and it is set
only when merging is enabled. -/
def MbOk (e : Nat) (merge : Bool) (s : BState) : Prop :=
  s.merge_base_dir = none ∨ (merge = true ∧ s.merge_base_dir = some e)

/-- Coupling between a dry run and a real streaming run sharing batch
size and merge setting: equal counters, merge-root reference and seen
set, while the dry side has touched no file and issued no commit. -/
def DrySame (sd sr : BState) : Prop :=
  sd.files_in_batch = sr.files_in_batch ∧
  sd.total_files = sr.total_files ∧
  sd.merge_base_dir = sr.merge_base_dir ∧
  sd.seen_top_dirs = sr.seen_top_dirs ∧
  sd.fs = [] ∧
  commitsOf sd.events = []

/-! ## Theorems -/

/-- Every `dotName` contains a dot. -/
theorem dotName_mem (i : Nat) : '.' ∈ (dotName i).data := by
  show '.' ∈ (List.replicate i 'a' ++ ['.'])
  simp

/-- A `dotName` is a root-level name without a top-level directory. -/
theorem get_top_dotName (i : Nat) : get_top_level_dir [dotName i] = none := by
  simp [get_top_level_dir, dotName_mem]

/-- Distinct indices give distinct `dotName`s. -/
theorem dotName_inj {i j : Nat} (h : dotName i = dotName j) : i = j := by
  have h2 : (List.replicate i 'a' ++ ['.']) = (List.replicate j 'a' ++ ['.']) := by
    injection h
  have := congrArg List.length h2
  simpa using this

/-- No `dotName` is the merge-root directory name. -/
theorem dotName_ne_merged (i : Nat) : ("merged" == dotName i) = false := by
  have hc := dotName_mem i
  by_contra hne
  have he : "merged" = dotName i := by
    have := Bool.not_eq_false _ |>.mp hne
    exact eq_of_beq this
  rw [← he] at hc
  exact absurd hc (by decide)

/-- Adding a file in scratch directory 0 raises its live-file count by
one. -/
theorem fsCountDir_cons_zero (fs : Fs) (p : FPath) (c : String) :
    fsCountDir ((0, p, c) :: fs) 0 = fsCountDir fs 0 + 1 := by
  simp [fsCountDir, List.filter_cons]

/-- Processing one loose dotted root-level file with batch size 1 and
merging enabled (merge root already materialized) places the file in the
staging root, commits the (empty) merge root, and leaves the loose file
live: the staging gains exactly one permanent file. -/
theorem loose_step_char (i : Nat) (st : BState)
    (hfib : st.files_in_batch = 0)
    (hmb : st.merge_base_dir = some 0)
    (hfs : ∀ en ∈ st.fs, en.1 = 0 ∧ ∃ j, en.2.1 = [dotName j] ∧ j < i) :
    (streaming_member_step ⟨1, false, true⟩ 0 st (fileM [dotName i] "")).files_in_batch = 0 ∧
    (streaming_member_step ⟨1, false, true⟩ 0 st (fileM [dotName i] "")).merge_base_dir = some 0 ∧
    (streaming_member_step ⟨1, false, true⟩ 0 st (fileM [dotName i] "")).fs
      = (0, [dotName i], "") :: st.fs := by
  have hfilter1 : st.fs.filter
      (fun en => (!(en.1 == 0)) || (!(en.2.1 == [dotName i]))) = st.fs := by
    apply List.filter_eq_self.mpr
    intro en hen
    obtain ⟨h0, j, hj, hji⟩ := hfs en hen
    simp [hj]
    exact Or.inr fun he => absurd (dotName_inj he) (Nat.ne_of_lt hji)
  have hfilter2 : ((0, [dotName i], "") :: st.fs).filter
      (fun en => (!(en.1 == 0)) || (!((["merged"] : FPath).isPrefixOf en.2.1)))
      = (0, [dotName i], "") :: st.fs := by
    apply List.filter_eq_self.mpr
    intro en hen
    rcases List.mem_cons.mp hen with h | h
    · subst h
      simp [List.isPrefixOf, dotName_ne_merged]
    · obtain ⟨h0, j, hj, hji⟩ := hfs en h
      simp [hj, List.isPrefixOf, dotName_ne_merged]
  refine ⟨?_, ?_, ?_⟩ <;>
    simp [streaming_member_step, process_tar_member, setup_merge_directory,
      get_top_dotName, Member.isfile, fileM, fsWrite, fsRemoveUnder, appendRoot,
      hmb, hfib, hfilter1, hfilter2]

/-- Processing `l` loose dotted root-level files accumulates `l` live
files in the staging root, no matter how many commits fire meanwhile. -/
theorem loose_run (l : Nat) : ∀ (i : Nat) (st : BState),
    st.files_in_batch = 0 → st.merge_base_dir = some 0 →
    (∀ en ∈ st.fs, en.1 = 0 ∧ ∃ j, en.2.1 = [dotName j] ∧ j < i) →
    fsCountDir ((looseFiles i l).foldl (streaming_member_step ⟨1, false, true⟩ 0) st).fs 0
      = fsCountDir st.fs 0 + l := by
  induction l with
  | zero => intro i st _ _ _; simp [looseFiles]
  | succ n ih =>
    intro i st h1 h2 h3
    have hsplit : looseFiles i (n + 1) = fileM [dotName i] "" :: looseFiles (i + 1) n := by
      simp [looseFiles, List.range'_succ]
    rw [hsplit, List.foldl_cons]
    obtain ⟨g1, g2, g3⟩ := loose_step_char i st h1 h2 h3
    rw [ih (i + 1) _ g1 g2 ?_]
    · rw [g3, fsCountDir_cons_zero]
      omega
    · intro en hen
      rw [g3] at hen
      rcases List.mem_cons.mp hen with h | h
      · subst h
        exact ⟨rfl, i, rfl, Nat.lt_succ_self i⟩
      · obtain ⟨h0, j, hj, hji⟩ := h3 en h
        exact ⟨h0, j, hj, Nat.lt_succ_of_lt hji⟩

/-- Processing the seed member `d/seed.bin` from the archive-start state
(any seen set) materializes the merge root, commits it at the immediate
batch boundary, and leaves the staging empty with the merge root set. -/
theorem seed_step_char (ss : List String) :
    (streaming_member_step ⟨1, false, true⟩ 0 { initBState with seen_top_dirs := ss }
        (fileM ["d", "seed.bin"] "s")).files_in_batch = 0 ∧
    (streaming_member_step ⟨1, false, true⟩ 0 { initBState with seen_top_dirs := ss }
        (fileM ["d", "seed.bin"] "s")).merge_base_dir = some 0 ∧
    (streaming_member_step ⟨1, false, true⟩ 0 { initBState with seen_top_dirs := ss }
        (fileM ["d", "seed.bin"] "s")).fs = [] := by
  refine ⟨?_, ?_, ?_⟩ <;>
    simp [streaming_member_step, process_tar_member, setup_merge_directory,
      get_top_level_dir, Member.isfile, fileM, fsWrite, fsExists, fsRemoveUnder,
      appendRoot, initBState, List.isPrefixOf]

/-- C1: refuted on the code — with merging enabled and batch size 1, for
every constant C there is an archive (`d/seed.bin` followed by `1 + C + 1`
distinct dotted root-level files) whose processing reaches a point (the
extraction loop of `process_archive_streaming`, started from the
post-first-pass state, whatever the seen set) where the number of live
files in the staging area exceeds batch size + C: dotted root-level files
are placed loose in the staging root while commits reset only the
`merged/` subtree, so live staging entries grow with the archive instead
of being bounded by B + O(1). -/
theorem C1_staging_unbounded :
    ∀ C : Nat, ∃ n : Nat, ∀ ss : List String,
      (⟨1, false, true⟩ : Config).batch_size + C <
        fsCountDir (process_members_streaming ⟨1, false, true⟩ 0 (looseArchive n)
          { initBState with seen_top_dirs := ss }).fs 0 := by
  intro C
  refine ⟨C + 2, fun ss => ?_⟩
  have hsplit : looseArchive (C + 2)
      = fileM ["d", "seed.bin"] "s" :: looseFiles 0 (C + 2) := rfl
  unfold process_members_streaming
  rw [hsplit, List.foldl_cons]
  obtain ⟨g1, g2, g3⟩ := seed_step_char ss
  have := loose_run (C + 2) 0 _ g1 g2 (by rw [g3]; intro en hen; simp at hen)
  rw [this, g3]
  simp [fsCountDir]
  omega

/-- C2: refuted on the code — with merging enabled, batch size 2 and the
archive `[foo/x.txt, manifest.json]` (N = 2 regular files), the run issues
exactly `⌈N / B⌉ = 1` commit, but the content root handed to it is the
`merged/` subtree, which holds only `foo/x.txt`: the total number of files
across all commits is 1, not N = 2 (`manifest.json` sits loose in the
staging root and is never committed). -/
theorem C2_commit_file_total_mismatch :
    (let tr := (build_from_archives ⟨2, false, true⟩
        [[fileM ["foo", "x.txt"] "x", fileM ["manifest.json"] "m"]]
        false).events
     (commitsOf tr).length = 1 ∧ committedFileTotal tr = 1 ∧
       (([fileM ["foo", "x.txt"] "x", fileM ["manifest.json"] "m"]).filter
         (fun m => m.isfile)).length = 2) := by
  decide

/-- C4: refuted on the code — with merging enabled and batch size 2,
immediately after the mid-archive batch-boundary commit of
`[data/a.bin, notes.txt]` completes (the commit tears down and recreates
only the `merged/` subtree), the staging directory still contains one
file, `notes.txt`, not zero. -/
theorem C4_staging_nonempty_after_commit :
    (let st := process_members_streaming ⟨2, false, true⟩ 0
        [fileM ["data", "a.bin"] "1", fileM ["notes.txt"] "2"]
        { initBState with seen_top_dirs := ["data"] }
     st.events = [Event.commit (0, ["merged"]) [(["data", "a.bin"], "1")]] ∧
       fsCountDir st.fs 0 = 1) := by
  decide

/-- C3: when merging is enabled, an entry whose path carries a top-level
directory name `t` begins with `t` and is always placed at
`merged/<its path>` inside the current merge root (shown here away from
the batch boundary) — so any two entries sharing a top-level name (in the
same or in later archives) land in the same `merged/t/` subtree rather
than fresh colliding directories — and in the concrete two-archive
scenario (A holding `foo/x.txt`, then B holding `foo/y.txt`) both commits
hand over the `merged/` root and the resulting image holds both files
under the single `foo/` subtree. -/
theorem C3_merge_routing :
    (∀ (name : FPath) (t : String), get_top_level_dir name = some t →
      ∃ rest, name = t :: rest) ∧
    (∀ (batch e : Nat) (t : String) (m : Member) (st : BState),
      m.isfile = true → get_top_level_dir m.name = some t →
      st.files_in_batch + 1 < batch →
      (process_tar_member ⟨batch, false, true⟩ e (some t) m st).fs
        = fsWrite st.fs (st.merge_base_dir.getD e) ("merged" :: m.name) m.content) ∧
    (let tr := (build_from_archives ⟨1000, false, true⟩
        [[fileM ["foo", "x.txt"] "1"], [fileM ["foo", "y.txt"] "2"]]
        false).events
     (commitsOf tr).map (fun c => c.1.2) = [["merged"], ["merged"]] ∧
     imageGet (imageOfTrace tr) ["foo", "x.txt"] = some "1" ∧
     imageGet (imageOfTrace tr) ["foo", "y.txt"] = some "2") := by
  refine ⟨?_, ?_, ?_⟩
  · intro name t h
    match name, h with
    | [p], h =>
      simp [get_top_level_dir] at h
      exact ⟨[], by rw [h.2]⟩
    | p :: q :: r, h =>
      simp [get_top_level_dir] at h
      exact ⟨q :: r, by rw [h]⟩
  · intro batch e t m st hf ht hb
    have hnb : ¬ batch ≤ st.files_in_batch + 1 := by omega
    cases hmbv : st.merge_base_dir <;>
      simp [process_tar_member, hf, hmbv, hnb]
  · decide

/-- Witness for C3 at a concrete input: `foo/y.txt` begins with its
top-level directory `foo`, and its placement from the pristine state with
batch size 1000 writes `merged/foo/y.txt` into the staging directory. -/
theorem C3_merge_routing_witness :
    (∃ rest, (["foo", "y.txt"] : FPath) = "foo" :: rest) ∧
    (process_tar_member ⟨1000, false, true⟩ 0 (some "foo")
        (fileM ["foo", "y.txt"] "2") initBState).fs
      = fsWrite initBState.fs 0 ("merged" :: ["foo", "y.txt"]) "2" :=
  ⟨C3_merge_routing.1 ["foo", "y.txt"] "foo" (by decide),
   C3_merge_routing.2.1 1000 0 "foo" (fileM ["foo", "y.txt"] "2") initBState
     rfl (by decide) (by decide)⟩

/-- C5: placing a regular file at a merge-root destination that already
holds a file overwrites it, last writer wins, and this is only reported
(an informational overwrite event; processing continues and the later
entries are still committed, with the committed content of the duplicate
path being the last writer's); and after archive B (processed after A,
both holding `foo/x.txt`) is committed, the image content of `foo/x.txt`
is B's. The image-collision half follows the spec's model of the external
`CommitDirectory` operation. -/
theorem C5_merge_overwrite_last_writer :
    (let tr := (build_from_archives ⟨1000, false, true⟩
        [[fileM ["foo", "x.txt"] "1", fileM ["foo", "x.txt"] "2",
          fileM ["foo", "z.txt"] "3"]] false).events
     tr = [Event.overwrite ["foo", "x.txt"],
           Event.commit (0, ["merged"])
             [(["foo", "z.txt"], "3"), (["foo", "x.txt"], "2")]]) ∧
    (let tr2 := (build_from_archives ⟨1000, false, true⟩
        [[fileM ["foo", "x.txt"] "1"], [fileM ["foo", "x.txt"] "2"]]
        false).events
     imageGet (imageOfTrace tr2) ["foo", "x.txt"] = some "2") := by
  decide

/-- C6: refuted on the code — on the two archives `[foo/x.txt]` then
`[bar/y.txt]` with merging enabled, streaming mode hands each commit a
content root inside the current archive's scratch directory (ids 0 then 1)
and ends with an empty disk, while memory-efficient mode — which never
resets `merge_base_dir` at archive start — reuses archive 0's (already
removed) scratch path for archive 1's placement and commit, and leaks the
placed file outside archive 1's scratch directory. -/
theorem C6_mode_divergence :
    let arcs : List (List Member) :=
      [[fileM ["foo", "x.txt"] "1"], [fileM ["bar", "y.txt"] "2"]]
    ((commitsOf (build_from_archives ⟨1000, false, true⟩ arcs false).events).map
        (fun c => c.1) = [(0, ["merged"]), (1, ["merged"])]) ∧
    ((commitsOf (build_from_archives ⟨1000, false, true⟩ arcs true).events).map
        (fun c => c.1) = [(0, ["merged"]), (0, ["merged"])]) ∧
    (build_from_archives ⟨1000, false, true⟩ arcs false).fs = [] ∧
    (build_from_archives ⟨1000, false, true⟩ arcs true).fs
      = [(0, ["merged", "bar", "y.txt"], "2")] := by
  decide

theorem step_seen (cfg : Config) (e : Nat) (m : Member) (s : BState) :
    (streaming_member_step cfg e s m).seen_top_dirs = s.seen_top_dirs := by
  obtain ⟨batch, dry, merge⟩ := cfg
  cases hm : m.isfile <;> cases dry <;> cases merge <;>
    cases htop : get_top_level_dir m.name <;> cases hmbv : s.merge_base_dir <;>
    simp [streaming_member_step, process_tar_member, setup_merge_directory,
      hm, htop, hmbv] <;>
    (try split) <;> simp

theorem step_total (cfg : Config) (e : Nat) (m : Member) (s : BState) :
    (streaming_member_step cfg e s m).total_files
      = s.total_files + (if m.isfile then 1 else 0) := by
  obtain ⟨batch, dry, merge⟩ := cfg
  cases hm : m.isfile <;> cases dry <;> cases merge <;>
    cases htop : get_top_level_dir m.name <;> cases hmbv : s.merge_base_dir <;>
    simp [streaming_member_step, process_tar_member, setup_merge_directory,
      hm, htop, hmbv] <;>
    (try split) <;> simp

theorem step_fib (cfg : Config) (e : Nat) (m : Member) (s : BState) :
    (streaming_member_step cfg e s m).files_in_batch
      = if m.isfile then
          (if cfg.batch_size ≤ s.files_in_batch + 1 then 0 else s.files_in_batch + 1)
        else s.files_in_batch := by
  obtain ⟨batch, dry, merge⟩ := cfg
  cases hm : m.isfile <;> cases dry <;> cases merge <;>
    cases htop : get_top_level_dir m.name <;> cases hmbv : s.merge_base_dir <;>
    simp [streaming_member_step, process_tar_member, setup_merge_directory,
      hm, htop, hmbv] <;>
    (try split) <;> simp_all

theorem step_dry_fs (cfg : Config) (e : Nat) (m : Member) (s : BState)
    (hd : cfg.dry_run = true) :
    (streaming_member_step cfg e s m).fs = s.fs := by
  obtain ⟨batch, dry, merge⟩ := cfg
  cases hd
  cases hm : m.isfile <;> cases merge <;>
    cases htop : get_top_level_dir m.name <;> cases hmbv : s.merge_base_dir <;>
    simp [streaming_member_step, process_tar_member, setup_merge_directory,
      hm, htop, hmbv] <;>
    (try split) <;> simp

theorem step_dry_events (cfg : Config) (e : Nat) (m : Member) (s : BState)
    (hd : cfg.dry_run = true) :
    (streaming_member_step cfg e s m).events = s.events := by
  obtain ⟨batch, dry, merge⟩ := cfg
  cases hd
  cases hm : m.isfile <;> cases merge <;>
    cases htop : get_top_level_dir m.name <;> cases hmbv : s.merge_base_dir <;>
    simp [streaming_member_step, process_tar_member, setup_merge_directory,
      hm, htop, hmbv] <;>
    (try split) <;> simp

theorem step_mb (cfg : Config) (e : Nat) (m : Member) (s : BState)
    (hmb : MbOk e cfg.merge_duplicates s) :
    (streaming_member_step cfg e s m).merge_base_dir
      = if m.isfile && cfg.merge_duplicates && (get_top_level_dir m.name).isSome
        then some e else s.merge_base_dir := by
  obtain ⟨batch, dry, merge⟩ := cfg
  simp only [MbOk] at hmb
  cases hm : m.isfile <;> cases dry <;> cases merge <;>
    cases htop : get_top_level_dir m.name <;> cases hmbv : s.merge_base_dir <;>
    simp [hmbv] at hmb <;>
    simp [streaming_member_step, process_tar_member, setup_merge_directory,
      hm, htop, hmbv] <;>
    (try subst hmb) <;>
    (try split) <;> simp_all



theorem dry_member_couple (batch : Nat) (merge : Bool) (e : Nat) (m : Member)
    (sd sr : BState) (h : DrySame sd sr) (hmb : MbOk e merge sr) :
    DrySame (streaming_member_step ⟨batch, true, merge⟩ e sd m)
        (streaming_member_step ⟨batch, false, merge⟩ e sr m) ∧
      MbOk e merge (streaming_member_step ⟨batch, false, merge⟩ e sr m) := by
  obtain ⟨h1, h2, h3, h4, h5, h6⟩ := h
  have hmbd : MbOk e merge sd := by
    rcases hmb with hn | ⟨hm, hs⟩
    · exact Or.inl (h3 ▸ hn)
    · exact Or.inr ⟨hm, h3 ▸ hs⟩
  have emb := step_mb ⟨batch, false, merge⟩ e m sr hmb
  have dmb := step_mb ⟨batch, true, merge⟩ e m sd hmbd
  refine ⟨⟨?_, ?_, ?_, ?_, ?_, ?_⟩, ?_⟩
  · rw [step_fib, step_fib, h1]
  · rw [step_total, step_total, h2]
  · rw [emb, dmb, h3]
  · rw [step_seen, step_seen, h4]
  · rw [step_dry_fs _ _ _ _ rfl, h5]
  · rw [step_dry_events _ _ _ _ rfl, h6]
  · simp only [MbOk] at hmb ⊢
    rw [emb]
    by_cases hc : (m.isfile && merge && (get_top_level_dir m.name).isSome) = true
    · rw [if_pos (by simpa using hc)]
      have hmerge : merge = true := by
        simp only [Bool.and_eq_true] at hc
        exact hc.1.2
      exact Or.inr ⟨hmerge, rfl⟩
    · rw [if_neg (by simpa using hc)]
      exact hmb

theorem dry_members_couple (batch : Nat) (merge : Bool) (e : Nat)
    (members : List Member) : ∀ (sd sr : BState), DrySame sd sr → MbOk e merge sr →
    DrySame (process_members_streaming ⟨batch, true, merge⟩ e members sd)
        (process_members_streaming ⟨batch, false, merge⟩ e members sr) ∧
      MbOk e merge (process_members_streaming ⟨batch, false, merge⟩ e members sr) := by
  induction members with
  | nil => intro sd sr h hmb; exact ⟨h, hmb⟩
  | cons m ms ih =>
    intro sd sr h hmb
    have hstep := dry_member_couple batch merge e m sd sr h hmb
    simpa [process_members_streaming, List.foldl_cons] using
      ih _ _ hstep.1 hstep.2



theorem pas_eq (cfg : Config) (e : Nat) (members : List Member) (st : BState) :
    process_archive_streaming cfg e members st =
      (let st3 := if cfg.merge_duplicates
          then { st with files_in_batch := 0, merge_base_dir := none,
                         seen_top_dirs := st.seen_top_dirs ++ firstPassTops members }
          else { st with files_in_batch := 0 }
       let st4 := process_members_streaming cfg e members st3
       let st5 := final_append cfg e st4
       { st5 with fs := fsRemoveDir st5.fs e }) := by
  simp only [process_archive_streaming]
  cases hm : cfg.merge_duplicates <;> simp [hm]

theorem final_append_fib (cfg : Config) (e : Nat) (st : BState) :
    (final_append cfg e st).files_in_batch = st.files_in_batch := by
  simp only [final_append]; split <;> rfl

theorem final_append_total (cfg : Config) (e : Nat) (st : BState) :
    (final_append cfg e st).total_files = st.total_files := by
  simp only [final_append]; split <;> rfl

theorem final_append_mb (cfg : Config) (e : Nat) (st : BState) :
    (final_append cfg e st).merge_base_dir = st.merge_base_dir := by
  simp only [final_append]; split <;> rfl

theorem final_append_seen (cfg : Config) (e : Nat) (st : BState) :
    (final_append cfg e st).seen_top_dirs = st.seen_top_dirs := by
  simp only [final_append]; split <;> rfl

theorem final_append_fs (cfg : Config) (e : Nat) (st : BState) :
    (final_append cfg e st).fs = st.fs := by
  simp only [final_append]; split <;> rfl

theorem commitsOf_dry_final (cfg : Config) (e : Nat) (st : BState)
    (hd : cfg.dry_run = true) :
    commitsOf (final_append cfg e st).events = commitsOf st.events := by
  simp only [final_append, append_to_squashfs, hd]
  split
  · simp [commitsOf, List.filterMap_append]
  · rfl

theorem dry_archive_couple (batch : Nat) (merge : Bool) (e : Nat)
    (members : List Member) (sd sr : BState) (h : DrySame sd sr)
    (hoff : merge = false → sr.merge_base_dir = none) :
    DrySame (process_archive_streaming ⟨batch, true, merge⟩ e members sd)
        (process_archive_streaming ⟨batch, false, merge⟩ e members sr) ∧
      (merge = false →
        (process_archive_streaming ⟨batch, false, merge⟩ e members sr).merge_base_dir
          = none) := by
  obtain ⟨h1, h2, h3, h4, h5, h6⟩ := h
  cases merge with
  | true =>
    simp only [pas_eq, if_true]
    have hcouple := dry_members_couple batch true e members
      { sd with files_in_batch := 0, merge_base_dir := none,
                seen_top_dirs := sd.seen_top_dirs ++ firstPassTops members }
      { sr with files_in_batch := 0, merge_base_dir := none,
                seen_top_dirs := sr.seen_top_dirs ++ firstPassTops members }
      ⟨rfl, h2, rfl, by rw [h4], h5, h6⟩ (Or.inl rfl)
    obtain ⟨⟨c1, c2, c3, c4, c5, c6⟩, cmb⟩ := hcouple
    refine ⟨⟨?_, ?_, ?_, ?_, ?_, ?_⟩, ?_⟩
    · show (final_append _ _ _).files_in_batch = (final_append _ _ _).files_in_batch
      rw [final_append_fib, final_append_fib, c1]
    · show (final_append _ _ _).total_files = (final_append _ _ _).total_files
      rw [final_append_total, final_append_total, c2]
    · show (final_append _ _ _).merge_base_dir = (final_append _ _ _).merge_base_dir
      rw [final_append_mb, final_append_mb, c3]
    · show (final_append _ _ _).seen_top_dirs = (final_append _ _ _).seen_top_dirs
      rw [final_append_seen, final_append_seen, c4]
    · show fsRemoveDir (final_append _ _ _).fs e = []
      rw [final_append_fs, c5]
      rfl
    · show commitsOf (final_append _ _ _).events = []
      rw [commitsOf_dry_final _ _ _ rfl, c6]
    · intro hfalse
      cases hfalse
  | false =>
    simp only [pas_eq, Bool.false_eq_true, if_false]
    have hcouple := dry_members_couple batch false e members
      { sd with files_in_batch := 0 } { sr with files_in_batch := 0 }
      ⟨rfl, h2, h3, h4, h5, h6⟩
      (Or.inl (by show sr.merge_base_dir = none; exact hoff rfl))
    obtain ⟨⟨c1, c2, c3, c4, c5, c6⟩, cmb⟩ := hcouple
    refine ⟨⟨?_, ?_, ?_, ?_, ?_, ?_⟩, ?_⟩
    · show (final_append _ _ _).files_in_batch = (final_append _ _ _).files_in_batch
      rw [final_append_fib, final_append_fib, c1]
    · show (final_append _ _ _).total_files = (final_append _ _ _).total_files
      rw [final_append_total, final_append_total, c2]
    · show (final_append _ _ _).merge_base_dir = (final_append _ _ _).merge_base_dir
      rw [final_append_mb, final_append_mb, c3]
    · show (final_append _ _ _).seen_top_dirs = (final_append _ _ _).seen_top_dirs
      rw [final_append_seen, final_append_seen, c4]
    · show fsRemoveDir (final_append _ _ _).fs e = []
      rw [final_append_fs, c5]
      rfl
    · show commitsOf (final_append _ _ _).events = []
      rw [commitsOf_dry_final _ _ _ rfl, c6]
    · intro _
      show (final_append _ _ _).merge_base_dir = none
      rw [final_append_mb]
      rcases cmb with hn | ⟨habs, _⟩
      · exact hn
      · cases habs



theorem dry_run_couple (batch : Nat) (merge : Bool)
    (l : List (Nat × List Member)) : ∀ (sd sr : BState), DrySame sd sr →
    (merge = false → sr.merge_base_dir = none) →
    DrySame
        (l.foldl (fun s p => process_archive_streaming ⟨batch, true, merge⟩ p.1 p.2 s) sd)
        (l.foldl (fun s p => process_archive_streaming ⟨batch, false, merge⟩ p.1 p.2 s) sr) ∧
      (merge = false →
        (l.foldl (fun s p => process_archive_streaming ⟨batch, false, merge⟩ p.1 p.2 s)
            sr).merge_base_dir = none) := by
  induction l with
  | nil => intro sd sr h hoff; exact ⟨h, hoff⟩
  | cons p ps ih =>
    intro sd sr h hoff
    have hstep := dry_archive_couple batch merge p.1 p.2 sd sr h hoff
    simpa [List.foldl_cons] using ih _ _ hstep.1 hstep.2

theorem C7_dry_run_amended (batch : Nat) (merge : Bool)
    (archives : List (List Member)) :
    (build_from_archives ⟨batch, true, merge⟩ archives false).total_files
      = (build_from_archives ⟨batch, false, merge⟩ archives false).total_files ∧
    commitsOf (build_from_archives ⟨batch, true, merge⟩ archives false).events = [] ∧
    (build_from_archives ⟨batch, true, merge⟩ archives false).fs = [] := by
  have h := dry_run_couple batch merge archives.enum initBState initBState
    ⟨rfl, rfl, rfl, rfl, rfl, rfl⟩ (fun _ => rfl)
  obtain ⟨⟨g1, g2, g3, g4, g5, g6⟩, _⟩ := h
  simp only [build_from_archives, Bool.false_eq_true, if_false]
  exact ⟨g2, g6, g5⟩

/-- C7, counterexample: on the archive `[a.txt, b.txt]` with batch size 1
(streaming, merging off), a real run issues two appends of one file each,
while a dry run reports no appends at all — the batch-boundary append in
`process_tar_member` is skipped entirely in dry-run — so the plan a dry
run reports does not equal what the real run does. -/
theorem C7_dry_plan_mismatch :
    let arcs : List (List Member) := [[fileM ["a.txt"] "1", fileM ["b.txt"] "2"]]
    dryReportsOf (build_from_archives ⟨1, true, false⟩ arcs false).events = [] ∧
    (commitsOf (build_from_archives ⟨1, false, false⟩ arcs false).events).map
        (fun c => c.2.length) = [1, 1] ∧
    ¬ (dryReportsOf (build_from_archives ⟨1, true, false⟩ arcs false).events
        = (commitsOf (build_from_archives ⟨1, false, false⟩ arcs false).events).map
            (fun c => c.2.length)) := by
  decide

/-- C8: a regular-file entry whose relative path is a single segment
containing a dot has no top-level directory, and in a merged run it is
extracted directly into the staging root and committed with the staging
root itself — not the merge root — as content root. -/
theorem C8_extension_root_file_not_merged :
    (∀ s : String, s.toList.contains '.' = true →
      get_top_level_dir [s] = none) ∧
    (commitsOf (build_from_archives ⟨1000, false, true⟩
        [[fileM ["manifest.json"] "m"]] false).events
      = [((0, []), [(["manifest.json"], "m")])]) := by
  constructor
  · intro s h
    have h2 : '.' ∈ s.data := by simpa using h
    simp [get_top_level_dir, h2]
  · decide

/-- Witness for C8 at the concrete input `manifest.json`. -/
theorem C8_extension_root_file_not_merged_witness :
    get_top_level_dir ["manifest.json"] = none :=
  C8_extension_root_file_not_merged.1 "manifest.json" (by decide)

/-- C9: a regular-file entry whose single-segment name has no dot gets
that segment as its top-level directory; with merging enabled it is routed
through the merge root (committed from `merged/`, i.e. extracted to
`merged/README`) and the segment enters the run-wide seen set. -/
theorem C9_plain_root_file_merged :
    (∀ s : String, s.toList.contains '.' = false →
      get_top_level_dir [s] = some s) ∧
    (let st := build_from_archives ⟨1000, false, true⟩
        [[fileM ["README"] "r"]] false
     commitsOf st.events = [((0, ["merged"]), [(["README"], "r")])] ∧
     st.seen_top_dirs = ["README"]) := by
  constructor
  · intro s h
    have h2 : '.' ∉ s.data := by simpa using h
    simp [get_top_level_dir, h2]
  · decide

/-- Witness for C9 at the concrete input `README`. -/
theorem C9_plain_root_file_merged_witness :
    get_top_level_dir ["README"] = some "README" :=
  C9_plain_root_file_merged.1 "README" (by decide)

/-- C10, counterexample: image initialization runs `mksquashfs` with no
timeout argument at all, so an initialization attempt lasting 301 seconds
(> 300) is not treated as failed — it succeeds — contradicting the claim
that every commit attempt, including initialization, is failed after 300
seconds. -/
theorem C10_init_has_no_timeout :
    300 < 301 ∧ initialize_squashfs_run false 301 = Except.ok () :=
  ⟨by decide, rfl⟩

/-- C10, amended: only the append path carries the 300-second wall-clock
timeout — a real (non-dry) append attempt whose `mksquashfs` invocation
exceeds 300 seconds is reported to the caller as a `RuntimeError` from its
single attempt (no retry) — while image initialization runs without any
timeout and completes whatever its duration. -/
theorem C10_append_timeout_reported (d : Nat) (h : 300 < d) :
    append_to_squashfs_run false d
        = Except.error "mksquashfs operation timed out after 5 minutes" ∧
      (∀ d2 : Nat, initialize_squashfs_run false d2 = Except.ok ()) := by
  refine ⟨?_, fun d2 => rfl⟩
  simp [append_to_squashfs_run, subprocess_run, h]

/-- Witness for the amended C10 at duration 301. -/
theorem C10_append_timeout_reported_witness :
    append_to_squashfs_run false 301
      = Except.error "mksquashfs operation timed out after 5 minutes" :=
  (C10_append_timeout_reported 301 (by decide)).1

end Tars2Squashfs
